import Mathlib

/-!
# Verification of the `stock_quant_analytic` revaluation allocator

Shallow embedding of `src/stock_quant_analytic/accounting/analytic.py`
(class `AnalyticQuantRevaluator`) and of the recordset helpers it calls in
`src/stock_quant_analytic/models/stock_quant.py`.

Modelling conventions:
* Python `Decimal` amounts and `float` quantities are modelled as exact
  rationals (`ℚ`).  `Decimal` division carries 28 significant digits in the
  source; it is modelled as exact rational division, which agrees with the
  source whenever the quotient is representable within that working
  precision (all concrete inputs used below are).
* Python's `round(d, p)` on a `Decimal` quantizes with the default context
  rounding mode `ROUND_HALF_EVEN`; this is embedded as `roundDec` below.
* Odoo `Command.create(vals)` tuples `(0, 0, vals)` become the `LineCmd`
  structure; the vals dict becomes the `LineVals` structure, whose `extra`
  field stands for all dict entries the allocator never touches.
* Python exceptions (`ValidationError`, `IndexError`, `decimal`
  division-by-zero signals) become the `Err` error type in `Except`.
* In-place dict mutation is modelled by returning updated lists; the
  role-scan helper `_get_line_by_type` additionally returns the position of
  the line it found, so that the in-place writes of `_correct_numeric` can
  be expressed as list updates at that position.
* `list(set(...))` (unspecified iteration order in Python) is modelled with
  `List.dedup`; every property proved below is order-insensitive, and
  concrete evaluations fix this one representative order.
-/

-- Batteries seals the `Rat` field arithmetic; re-open it so that concrete
-- runs of the embedded code can be checked by `decide`.
attribute [local semireducible] Rat.add Rat.mul Rat.inv Rat.sub Rat.ofScientific

set_option maxRecDepth 100000

namespace StockQuantAnalytic

/-- One account-move-line vals dict.  Fields the allocator reads or writes
are explicit; `extra` stands for all remaining dict entries, which the
allocator copies around untouched. -/
structure LineVals where
  debit : ℚ := 0
  credit : ℚ := 0
  product_id : Option Int := none
  analytic_account_id : Option Int := none
  extra : List (String × Int) := []
  deriving Repr, DecidableEq

/-- One line command tuple `(code, id, vals)` as passed in `line_ids`. -/
structure LineCmd where
  cmd : Int
  ident : Int
  vals : LineVals
  deriving Repr, DecidableEq

/-- `odoo.Command.CREATE` -/
def commandCreate : Int := 0

/-- `odoo.Command.create(vals)` = `(0, 0, vals)` -/
def mkCreate (v : LineVals) : LineCmd := ⟨commandCreate, 0, v⟩

/-- One `stock.quant` record, with the fields the module reads. -/
structure StockQuant where
  product_id : Int
  location_usage : String
  quantity : ℚ
  analytic_account_id : Option Int
  deriving Repr, DecidableEq

/-- The Python exceptions the allocator can raise. -/
inductive Err where
  | validation (msg : String)
  | indexError
  | divisionByZero
  deriving Repr, DecidableEq

instance {ε α : Type} [DecidableEq ε] [DecidableEq α] :
    DecidableEq (Except ε α) := fun x y =>
  match x, y with
  | .error a, .error b => decidable_of_iff (a = b) (by simp)
  | .ok a, .ok b => decidable_of_iff (a = b) (by simp)
  | .error _, .ok _ => isFalse (by simp)
  | .ok _, .error _ => isFalse (by simp)

/-! ## Recordset helpers (`models/stock_quant.py`) -/

/-- `StockQuant.find_inventory_by_product`: the quants of the current
inventory of the given product, restricted to internal/transit locations. -/
def find_inventory_by_product (db : List StockQuant) (pid : Int) :
    List StockQuant :=
  db.filter fun q =>
    q.product_id == pid &&
      (q.location_usage == "internal" || q.location_usage == "transit")

/-- `StockQuant.has_any_unset_analytic_account` -/
def has_any_unset_analytic_account (qs : List StockQuant) : Bool :=
  qs.any fun q => q.analytic_account_id.isNone

/-- `StockQuant.get_unique_analytic_accounts`: `list(set(ids))`, modelled
as `dedup` of the non-null account ids. -/
def get_unique_analytic_accounts (qs : List StockQuant) : List Int :=
  (qs.filterMap fun q => q.analytic_account_id).dedup

/-- `StockQuant.filter_by_analytic_account`; a falsy argument (here
`none`) keeps exactly the quants with no account set. -/
def filter_by_analytic_account (qs : List StockQuant)
    (account : Option Int) : List StockQuant :=
  qs.filter fun q => q.analytic_account_id == account

/-- `StockQuant.get_total_quantity`: decimal sum of the quantities,
zero for an empty recordset. -/
def get_total_quantity (qs : List StockQuant) : ℚ :=
  (qs.map fun q => q.quantity).sum

/-! ## Decimal rounding (`round(Decimal, prec)`, ROUND_HALF_EVEN) -/

/-- `AnalyticQuantRevaluator._prec` -/
def prec : ℕ := 4

/-- Round a rational to the nearest integer, ties to the even neighbour:
the behaviour of quantizing a Python `Decimal` with the default context
rounding `ROUND_HALF_EVEN`.  (`q.num / q.den` is `⌊q⌋`, kept in this
explicit form so that the kernel can evaluate it.) -/
def roundHalfEvenInt (q : ℚ) : ℤ :=
  let f := q.num / (q.den : ℤ)
  if q - f < 1/2 then f
  else if 1/2 < q - f then f + 1
  else if f % 2 = 0 then f else f + 1

theorem roundHalfEvenInt_floor (q : ℚ) :
    roundHalfEvenInt q =
      if q - ⌊q⌋ < 1/2 then ⌊q⌋
      else if 1/2 < q - ⌊q⌋ then ⌊q⌋ + 1
      else if ⌊q⌋ % 2 = 0 then ⌊q⌋ else ⌊q⌋ + 1 := by
  rw [roundHalfEvenInt, Rat.floor_def]

/-- `round(q, p)` on a `Decimal`: quantize to `p` decimal places with
ROUND_HALF_EVEN. -/
def roundDec (p : ℕ) (q : ℚ) : ℚ :=
  (roundHalfEvenInt (q * 10 ^ p) : ℚ) / 10 ^ p

example : roundHalfEvenInt (5/2) = 2 := by decide
example : roundHalfEvenInt (3/2) = 2 := by decide
example : roundHalfEvenInt (-1/2) = 0 := by decide
example : roundDec 4 (12345/100000) = 1234/10000 := by decide
example : roundDec 4 (99995/100000) = 1 := by decide

/-! ### Properties of the embedded rounding -/

/-- `x` is a whole multiple of `10 ^ (-p)`: exactly representable at `p`
decimal places. -/
def IsDecMult (p : ℕ) (x : ℚ) : Prop := ∃ k : ℤ, x = (k : ℚ) / 10 ^ p

theorem roundHalfEvenInt_intCast (k : ℤ) : roundHalfEvenInt (k : ℚ) = k := by
  rw [roundHalfEvenInt_floor]
  simp

theorem roundDec_eq_self {p : ℕ} {x : ℚ} (h : IsDecMult p x) :
    roundDec p x = x := by
  obtain ⟨k, rfl⟩ := h
  have h10 : ((10 : ℚ) ^ p) ≠ 0 := by positivity
  rw [roundDec, div_mul_cancel₀ _ h10, roundHalfEvenInt_intCast]

theorem isDecMult_roundDec (p : ℕ) (q : ℚ) : IsDecMult p (roundDec p q) :=
  ⟨roundHalfEvenInt (q * 10 ^ p), rfl⟩

theorem IsDecMult.zero (p : ℕ) : IsDecMult p 0 :=
  ⟨0, by simp⟩

theorem IsDecMult.add {p : ℕ} {x y : ℚ} (hx : IsDecMult p x)
    (hy : IsDecMult p y) : IsDecMult p (x + y) := by
  obtain ⟨k, rfl⟩ := hx
  obtain ⟨j, rfl⟩ := hy
  exact ⟨k + j, by push_cast; rw [add_div]⟩

theorem IsDecMult.sub {p : ℕ} {x y : ℚ} (hx : IsDecMult p x)
    (hy : IsDecMult p y) : IsDecMult p (x - y) := by
  obtain ⟨k, rfl⟩ := hx
  obtain ⟨j, rfl⟩ := hy
  exact ⟨k - j, by push_cast; rw [sub_div]⟩

theorem IsDecMult.abs {p : ℕ} {x : ℚ} (hx : IsDecMult p x) :
    IsDecMult p |x| := by
  obtain ⟨k, rfl⟩ := hx
  refine ⟨|k|, ?_⟩
  rw [abs_div, abs_of_pos (a := (10 : ℚ) ^ p) (by positivity), Int.cast_abs]

theorem roundHalfEvenInt_close (q : ℚ) :
    |q - (roundHalfEvenInt q : ℚ)| ≤ 1 / 2 ∧
      (|q - (roundHalfEvenInt q : ℚ)| = 1 / 2 → roundHalfEvenInt q % 2 = 0) := by
  rw [roundHalfEvenInt_floor]
  have h1 : ((⌊q⌋ : ℤ) : ℚ) ≤ q := Int.floor_le q
  have h2 : q < ⌊q⌋ + 1 := Int.lt_floor_add_one q
  split_ifs with ha hb hc
  · constructor
    · rw [abs_of_nonneg (by linarith)]; linarith
    · intro h; rw [abs_of_nonneg (by linarith)] at h; linarith
  · constructor
    · rw [abs_of_nonpos (by push_cast; linarith)]; push_cast; linarith
    · intro h
      rw [abs_of_nonpos (by push_cast; linarith)] at h
      push_cast at h; linarith
  · have he : q - (⌊q⌋ : ℚ) = 1 / 2 := by
      have hb' := le_of_not_lt hb
      have ha' := le_of_not_lt ha
      linarith
    refine ⟨by rw [abs_of_nonneg (by linarith)]; linarith, fun _ => hc⟩
  · have he : q - (⌊q⌋ : ℚ) = 1 / 2 := by
      have hb' := le_of_not_lt hb
      have ha' := le_of_not_lt ha
      linarith
    constructor
    · rw [abs_of_nonpos (by push_cast; linarith)]; push_cast; linarith
    · intro _; omega

/-- What it means for `m` to be `x` rounded at `p` decimal places with ties
to even: `m` is representable at `p` places, within half an ulp of `x`, and
an exact tie lands on an even scaled value. -/
def HalfEvenRound (p : ℕ) (x m : ℚ) : Prop :=
  IsDecMult p m ∧ |x - m| ≤ 1 / (2 * 10 ^ p) ∧
    (|x - m| = 1 / (2 * 10 ^ p) → ∃ j : ℤ, m = ((2 * j : ℤ) : ℚ) / 10 ^ p)

theorem halfEvenRound_roundDec (p : ℕ) (x : ℚ) :
    HalfEvenRound p x (roundDec p x) := by
  have h10 : (0 : ℚ) < 10 ^ p := by positivity
  obtain ⟨hle, htie⟩ := roundHalfEvenInt_close (x * 10 ^ p)
  have habs : |x - roundDec p x| = |x * 10 ^ p - roundHalfEvenInt (x * 10 ^ p)| / 10 ^ p := by
    rw [roundDec]
    rw [show x - (roundHalfEvenInt (x * 10 ^ p) : ℚ) / 10 ^ p =
        (x * 10 ^ p - roundHalfEvenInt (x * 10 ^ p)) / 10 ^ p by
      field_simp]
    rw [abs_div, abs_of_pos h10]
  refine ⟨isDecMult_roundDec p x, ?_, ?_⟩
  · rw [habs, div_le_div_iff₀ h10 (by positivity)]
    nlinarith [mul_le_mul_of_nonneg_right hle (le_of_lt h10)]
  · intro h
    rw [habs] at h
    have hhalf : (1 : ℚ) / (2 * 10 ^ p) * 10 ^ p = 1 / 2 := by
      field_simp
      ring
    rw [div_eq_iff (ne_of_gt h10), hhalf] at h
    obtain he := htie h
    obtain ⟨j, hj⟩ : ∃ j : ℤ, roundHalfEvenInt (x * 10 ^ p) = 2 * j := ⟨roundHalfEvenInt (x * 10 ^ p) / 2, by omega⟩
    exact ⟨j, by rw [roundDec, hj]⟩

/-- Round half away from zero.  This is the second, spec-side rounding:
modelled from the spec's words "round-half-away-from-zero at the configured
precision", for comparison with the source's `round` (`roundDec`). -/
def specRoundHalfAwayInt (q : ℚ) : ℤ :=
  if 0 ≤ q then ⌊q + 1 / 2⌋ else -⌊-q + 1 / 2⌋

/-- Round half away from zero at `p` decimal places (spec-side). -/
def specRoundHalfAwayDec (p : ℕ) (q : ℚ) : ℚ :=
  (specRoundHalfAwayInt (q * 10 ^ p) : ℚ) / 10 ^ p

example : specRoundHalfAwayDec 4 (12345 / 100000) = 1235 / 10000 := by decide
example : roundDec 4 (12345 / 100000) = 1234 / 10000 := by decide

/-! ## The allocator (`accounting/analytic.py`, class `AnalyticQuantRevaluator`) -/

/-- `AnalyticQuantRevaluator.check_lines`: validity checks on the two line
commands; returns the product id.  Indexing `lines[0]`/`lines[1]` raises
`IndexError` on shorter lists — the length itself is not checked here. -/
def check_lines (lines : List LineCmd) : Except Err Int :=
  match lines[0]? with
  | none => .error .indexError
  | some cmd_line_1 =>
    match lines[1]? with
    | none => .error .indexError
    | some cmd_line_2 =>
      if cmd_line_1.cmd ≠ commandCreate ∨ cmd_line_2.cmd ≠ commandCreate then
        .error (.validation "Expected Command.CREATE code")
      else
        match cmd_line_1.vals.product_id with
        | none => .error (.validation "No product ID Found")
        | some product_id =>
          if cmd_line_2.vals.product_id ≠ some product_id then
            .error (.validation "Internal error: Product IDs do not match")
          else .ok product_id

/-- The two roles `_get_line_by_type` can be asked for. -/
inductive AccType where
  | debit
  | credit
  deriving Repr, DecidableEq

/-- `line_vals.get(acc_type, 0)` for the two dynamic keys used. -/
def LineVals.getAmount (v : LineVals) : AccType → ℚ
  | .debit => v.debit
  | .credit => v.credit

/-- `AnalyticQuantRevaluator._get_line_by_type`: scan positions 0 and 1 for
the line whose `acc_type` amount is nonzero.  The position found is returned
alongside the vals so that the caller's in-place dict mutation can be
modelled as a list update. -/
def get_line_by_type (lines : List LineCmd) (acc_type : AccType) :
    Except Err (ℕ × LineVals) :=
  match lines[0]? with
  | none => .error .indexError
  | some l0 =>
    if l0.vals.getAmount acc_type ≠ 0 then .ok (0, l0.vals)
    else
      match lines[1]? with
      | none => .error .indexError
      | some l1 =>
        if l1.vals.getAmount acc_type ≠ 0 then .ok (1, l1.vals)
        else .error (.validation "Failed to find account move line of type")

/-- `AnalyticQuantRevaluator._needs_numeric_correction` -/
def needs_numeric_correction (total_computed expected_sum : ℚ) : Bool :=
  decide (roundDec prec total_computed ≠ roundDec prec expected_sum)

/-- Replace a line's debit amount (the write `line['debit'] = x`). -/
def update_debit (l : LineCmd) (x : ℚ) : LineCmd :=
  { l with vals := { l.vals with debit := x } }

/-- Replace a line's credit amount (the write `line['credit'] = x`). -/
def update_credit (l : LineCmd) (x : ℚ) : LineCmd :=
  { l with vals := { l.vals with credit := x } }

/-- Apply `f` to the element at position `i`, leaving the rest alone. -/
def modifyAt (l : List LineCmd) (i : ℕ) (f : LineCmd → LineCmd) :
    List LineCmd :=
  match l, i with
  | [], _ => []
  | x :: xs, 0 => f x :: xs
  | x :: xs, n + 1 => x :: modifyAt xs n f

/-- `AnalyticQuantRevaluator._correct_numeric`: add the difference to the
first debit amount and the first credit amount (located independently by
role-scan), then round the absolute values back in.  Both reads happen
before both writes, as in the source. -/
def correct_numeric (revaluated_lines : List LineCmd)
    (actual_computed expected_sum : ℚ) : Except Err (List LineCmd) :=
  let difference := expected_sum - actual_computed
  match get_line_by_type revaluated_lines .debit with
  | .error e => .error e
  | .ok (i, first_line_debit) =>
    match get_line_by_type revaluated_lines .credit with
    | .error e => .error e
    | .ok (j, first_line_credit) =>
      let corrected_debit := first_line_debit.debit + difference
      let corrected_credit := first_line_credit.credit + difference
      let lines1 := modifyAt revaluated_lines i
        (fun l => update_debit l (roundDec prec |corrected_debit|))
      let lines2 := modifyAt lines1 j
        (fun l => update_credit l (roundDec prec |corrected_credit|))
      .ok lines2

/-- `AnalyticQuantRevaluator._compute_actual_total_of`: decimal sum of the
`debit` amounts of the given command lines. -/
def compute_actual_total_of (revaluated_lines : List LineCmd) : ℚ :=
  (revaluated_lines.map fun l => l.vals.debit).sum

/-- `AnalyticQuantRevaluator._correct_numeric_discrepancy` -/
def correct_numeric_discrepancy (revaluated_lines : List LineCmd)
    (expected_sum : ℚ) : Except Err (Bool × List LineCmd) :=
  if revaluated_lines.isEmpty then .ok (false, revaluated_lines)
  else
    let total_computed := compute_actual_total_of revaluated_lines
    if needs_numeric_correction total_computed expected_sum then
      match correct_numeric revaluated_lines total_computed expected_sum with
      | .error e => .error e
      | .ok lines2 => .ok (true, lines2)
    else .ok (false, revaluated_lines)

/-- `AnalyticQuantRevaluator._compute_revaluation_factor`.  A zero total
quantity makes the `Decimal` division signal (DivisionByZero or
InvalidOperation, both untrapped exceptions), modelled as `Err`. -/
def compute_revaluation_factor (quants : List StockQuant)
    (account : Option Int) (total_quantity : ℚ) : Except Err ℚ :=
  if total_quantity = 0 then .error .divisionByZero
  else
    .ok (roundDec prec
      (get_total_quantity (filter_by_analytic_account quants account) /
        total_quantity))

/-- `AnalyticQuantRevaluator._compute_group_value` -/
def compute_group_value (factor valuation_total : ℚ) : ℚ :=
  roundDec prec (factor * valuation_total)

/-- `AnalyticQuantRevaluator._create_aml_pair`: copies of the two templates
with the amounts replaced by `abs(value)`, mutually exclusive, and the
group's analytic account installed. -/
def create_aml_pair (template_debit template_credit : LineVals)
    (account : Option Int) (value : ℚ) : LineVals × LineVals :=
  ({ template_debit with
      debit := |value|, credit := 0, analytic_account_id := account },
   { template_credit with
      debit := 0, credit := |value|, analytic_account_id := account })

/-- The group list `compute_lines` iterates over: the synthetic unset group
first (when some quant has no account and at least one account exists),
then the distinct accounts in discovery order. -/
def group_list (quants : List StockQuant) : List (Option Int) :=
  let accounts := get_unique_analytic_accounts quants
  if has_any_unset_analytic_account quants = true ∧ 0 < accounts.length then
    none :: accounts.map some
  else accounts.map some

/-- The `for account in analytic_accounts` loop of `compute_lines`: per
group compute the factor and group value, skip zero-valued groups, emit a
created debit/credit pair otherwise. -/
def revalue_groups (quants : List StockQuant)
    (debit_line credit_line : LineVals) (total_value total_quantity : ℚ) :
    List (Option Int) → Except Err (List LineCmd)
  | [] => .ok []
  | account :: rest =>
    match compute_revaluation_factor quants account total_quantity with
    | .error e => .error e
    | .ok factor =>
      let group_value := compute_group_value factor total_value
      if group_value = 0 then
        revalue_groups quants debit_line credit_line total_value
          total_quantity rest
      else
        match revalue_groups quants debit_line credit_line total_value
            total_quantity rest with
        | .error e => .error e
        | .ok tail =>
          let (d, c) :=
            create_aml_pair debit_line credit_line account group_value
          .ok (mkCreate d :: mkCreate c :: tail)

/-- `AnalyticQuantRevaluator.compute_lines`: the allocator pipeline.
`db` stands for the stock-quant table the environment query reads. -/
def compute_lines (db : List StockQuant) (lines : List LineCmd) :
    Except Err (Option (List LineCmd)) :=
  match check_lines lines with
  | .error e => .error e
  | .ok product_id =>
    match get_line_by_type lines .debit with
    | .error e => .error e
    | .ok (_, debit_line) =>
      match get_line_by_type lines .credit with
      | .error e => .error e
      | .ok (_, credit_line) =>
        let total_value := debit_line.debit
        let quants := find_inventory_by_product db product_id
        let accounts := get_unique_analytic_accounts quants
        if accounts.length = 0 then
          .ok none
        else
          let total_quantity := get_total_quantity quants
          match revalue_groups quants debit_line credit_line total_value
              total_quantity (group_list quants) with
          | .error e => .error e
          | .ok revaluated =>
            match correct_numeric_discrepancy revaluated total_value with
            | .error e => .error e
            | .ok (_, corrected) =>
              if corrected.isEmpty then .ok none else .ok (some corrected)

/-- The `vals` dict passed to `AccountMove.create`; `line_ids = none`
models a dict without the key (read back with `vals.get('line_ids', [])`),
`extra` the other keys, which `revaluate` never touches. -/
structure Vals where
  line_ids : Option (List LineCmd) := none
  extra : List (String × Int) := []
  deriving Repr, DecidableEq

/-- `AnalyticQuantRevaluator.revaluate`: the top-level entry.  The updated
dict is returned together with the source's boolean result; an exception
leaves the caller's dict untouched by construction. -/
def revaluate (db : List StockQuant) (vals : Vals) :
    Except Err (Vals × Bool) :=
  let line_ids := vals.line_ids.getD []
  if line_ids.length ≠ 2 then .error (.validation "Expected two lines")
  else
    match compute_lines db line_ids with
    | .error e => .error e
    | .ok (some nl) => .ok ({ vals with line_ids := some nl }, true)
    | .ok none => .ok (vals, false)

/-! ## Structural lemmas about the allocator -/

/-- The shape of the line list built by `revalue_groups`: alternating
debit/credit pairs, the debit line with a nonzero 4-decimal debit and a
zero credit, the credit line the other way round. -/
def PairsShape : List LineCmd → Prop
  | [] => True
  | d :: c :: rest =>
      d.vals.debit ≠ 0 ∧ d.vals.credit = 0 ∧ c.vals.debit = 0 ∧
        c.vals.credit ≠ 0 ∧ IsDecMult prec d.vals.debit ∧ PairsShape rest
  | _ => False

/-- Each list element repeated twice, in order (the account of a pair,
once per line of the pair). -/
def doubled : List (Option Int) → List (Option Int)
  | [] => []
  | g :: t => g :: g :: doubled t

theorem mem_doubled {a : Option Int} : ∀ {l : List (Option Int)},
    a ∈ doubled l ↔ a ∈ l
  | [] => by simp [doubled]
  | g :: t => by
      simp [doubled, List.mem_cons, mem_doubled (l := t)]

theorem revalue_groups_shape (quants : List StockQuant) (dl cl : LineVals)
    (tv tq : ℚ) (gs : List (Option Int)) :
    ∀ out, revalue_groups quants dl cl tv tq gs = .ok out →
      PairsShape out := by
  induction gs with
  | nil =>
    intro out h
    rw [revalue_groups] at h
    injection h with h
    subst h
    trivial
  | cons g rest ih =>
    intro out h
    rw [revalue_groups] at h
    cases hf : compute_revaluation_factor quants g tq with
    | error e => rw [hf] at h; exact absurd h (by simp)
    | ok factor =>
      rw [hf] at h
      simp only at h
      by_cases hz : compute_group_value factor tv = 0
      · rw [if_pos hz] at h
        exact ih out h
      · rw [if_neg hz] at h
        cases ht : revalue_groups quants dl cl tv tq rest with
        | error e => rw [ht] at h; exact absurd h (by simp)
        | ok tail =>
          rw [ht] at h
          simp only [create_aml_pair] at h
          injection h with h
          subst h
          refine ⟨by simpa [mkCreate] using hz, rfl, rfl,
            by simpa [mkCreate] using hz, ?_, ih tail ht⟩
          exact (isDecMult_roundDec prec _).abs

theorem pairsShape_total_isDecMult :
    ∀ l : List LineCmd, PairsShape l →
      IsDecMult prec (compute_actual_total_of l)
  | [], _ => by simpa [compute_actual_total_of] using IsDecMult.zero prec
  | [_], h => False.elim h
  | d :: c :: rest, h => by
    obtain ⟨_, _, hcd, _, hdm, hrest⟩ := h
    have ih := pairsShape_total_isDecMult rest hrest
    simp only [compute_actual_total_of, List.map_cons, List.sum_cons] at ih ⊢
    rw [hcd, zero_add]
    exact hdm.add ih

theorem revalue_groups_accounts (quants : List StockQuant)
    (dl cl : LineVals) (tv tq : ℚ) (gs : List (Option Int)) :
    ∀ out, revalue_groups quants dl cl tv tq gs = .ok out →
      ∃ gs2, List.Sublist gs2 gs ∧
        out.map (fun c => c.vals.analytic_account_id) = doubled gs2 ∧
        ∀ g ∈ gs2, ∃ f, compute_revaluation_factor quants g tq = .ok f ∧
          compute_group_value f tv ≠ 0 := by
  induction gs with
  | nil =>
    intro out h
    rw [revalue_groups] at h
    injection h with h
    subst h
    exact ⟨[], List.Sublist.refl [], rfl, by simp⟩
  | cons g rest ih =>
    intro out h
    rw [revalue_groups] at h
    cases hf : compute_revaluation_factor quants g tq with
    | error e => rw [hf] at h; exact absurd h (by simp)
    | ok factor =>
      rw [hf] at h
      simp only at h
      by_cases hz : compute_group_value factor tv = 0
      · rw [if_pos hz] at h
        obtain ⟨gs2, hsub, hmap, hval⟩ := ih out h
        exact ⟨gs2, hsub.cons g, hmap, hval⟩
      · rw [if_neg hz] at h
        cases ht : revalue_groups quants dl cl tv tq rest with
        | error e => rw [ht] at h; exact absurd h (by simp)
        | ok tail =>
          rw [ht] at h
          simp only [create_aml_pair] at h
          injection h with h
          subst h
          obtain ⟨gs2, hsub, hmap, hval⟩ := ih tail ht
          refine ⟨g :: gs2, hsub.cons₂ g, ?_, ?_⟩
          · simp [doubled, mkCreate, hmap]
          · intro g2 hg2
            rcases List.mem_cons.mp hg2 with hg2 | hg2
            · exact hg2 ▸ ⟨factor, hf, hz⟩
            · exact hval g2 hg2

theorem map_modifyAt {α : Type} (g : LineCmd → α) (f : LineCmd → LineCmd)
    (hf : ∀ x, g (f x) = g x) :
    ∀ (l : List LineCmd) (i : ℕ), (modifyAt l i f).map g = l.map g
  | [], _ => rfl
  | x :: xs, 0 => by simp [modifyAt, hf]
  | x :: xs, n + 1 => by simp [modifyAt, map_modifyAt g f hf xs n]

theorem correct_numeric_map_account (l : List LineCmd) (a e : ℚ)
    (out : List LineCmd) (h : correct_numeric l a e = .ok out) :
    out.map (fun x => x.vals.analytic_account_id) =
      l.map (fun x => x.vals.analytic_account_id) := by
  rw [correct_numeric] at h
  cases h1 : get_line_by_type l .debit with
  | error e1 => rw [h1] at h; exact absurd h (by simp)
  | ok p1 =>
    rw [h1] at h
    obtain ⟨i, fld⟩ := p1
    cases h2 : get_line_by_type l .credit with
    | error e2 => rw [h2] at h; exact absurd h (by simp)
    | ok p2 =>
      rw [h2] at h
      obtain ⟨j, flc⟩ := p2
      simp only at h
      injection h with h
      subst h
      rw [map_modifyAt _ _ (fun x => by simp [update_credit]),
        map_modifyAt _ _ (fun x => by simp [update_debit])]

theorem correct_numeric_discrepancy_map_account (l : List LineCmd) (e : ℚ)
    (b : Bool) (out : List LineCmd)
    (h : correct_numeric_discrepancy l e = .ok (b, out)) :
    out.map (fun x => x.vals.analytic_account_id) =
      l.map (fun x => x.vals.analytic_account_id) := by
  rw [correct_numeric_discrepancy] at h
  by_cases hemp : l.isEmpty
  · rw [if_pos hemp] at h
    injection h with h
    injection h with h1 h2
    subst h2
    rfl
  · rw [if_neg hemp] at h
    simp only at h
    by_cases hneed :
      needs_numeric_correction (compute_actual_total_of l) e = true
    · rw [if_pos hneed] at h
      cases hcn : correct_numeric l (compute_actual_total_of l) e with
      | error e1 => rw [hcn] at h; exact absurd h (by simp)
      | ok out2 =>
        rw [hcn] at h
        injection h with h
        injection h with h1 h2
        subst h2
        exact correct_numeric_map_account l _ e out2 hcn
    · rw [if_neg hneed] at h
      injection h with h
      injection h with h1 h2
      subst h2
      rfl

theorem correct_numeric_eq (d c : LineCmd) (rest : List LineCmd) (a e : ℚ)
    (hd0 : d.vals.debit ≠ 0) (hdc : d.vals.credit = 0)
    (hcc : c.vals.credit ≠ 0) :
    correct_numeric (d :: c :: rest) a e =
      .ok (update_debit d (roundDec prec |d.vals.debit + (e - a)|) ::
        update_credit c (roundDec prec |c.vals.credit + (e - a)|) :: rest) := by
  have h1 : get_line_by_type (d :: c :: rest) .debit = .ok (0, d.vals) := by
    rw [get_line_by_type]
    simp [LineVals.getAmount, hd0]
  have h2 : get_line_by_type (d :: c :: rest) .credit = .ok (1, c.vals) := by
    rw [get_line_by_type]
    simp [LineVals.getAmount, hdc, hcc]
  rw [correct_numeric, h1, h2]
  simp [modifyAt]

theorem correct_discrepancy_conservation (l : List LineCmd) (e : ℚ)
    (b : Bool) (out : List LineCmd) (hs : PairsShape l) (hne : l ≠ [])
    (he : IsDecMult prec e)
    (h : correct_numeric_discrepancy l e = .ok (b, out))
    (hnn : compute_actual_total_of (List.drop 1 out) ≤ e) :
    roundDec prec (compute_actual_total_of out) = roundDec prec e := by
  cases l with
  | nil => exact absurd rfl hne
  | cons d l2 =>
    cases l2 with
    | nil => exact False.elim hs
    | cons c rest =>
      obtain ⟨hd0, hdc, hcd, hcc, hdm, hrest⟩ := hs
      have hS : IsDecMult prec (compute_actual_total_of rest) :=
        pairsShape_total_isDecMult rest hrest
      rw [correct_numeric_discrepancy] at h
      rw [if_neg (by simp)] at h
      simp only at h
      by_cases hneed : needs_numeric_correction
          (compute_actual_total_of (d :: c :: rest)) e = true
      · rw [if_pos hneed,
          correct_numeric_eq d c rest (compute_actual_total_of (d :: c :: rest))
            e hd0 hdc hcc] at h
        injection h with h
        injection h with h1 h2
        subst h2
        simp only [compute_actual_total_of, List.map_cons, List.sum_cons,
          List.drop, update_credit, update_debit] at hnn ⊢
        rw [hcd] at hnn ⊢
        simp only [compute_actual_total_of, List.map_cons, List.sum_cons,
          zero_add] at hnn ⊢
        set S := (rest.map fun x => x.vals.debit).sum with hSdef
        have hkey : d.vals.debit + (e - (d.vals.debit + S)) = e - S := by
          ring
        rw [hkey, abs_of_nonneg (by linarith),
          roundDec_eq_self (he.sub (by simpa [compute_actual_total_of] using hS))]
        have heS : e - S + S = e := by ring
        rw [heS]
      · rw [if_neg hneed] at h
        injection h with h
        injection h with h1 h2
        subst h2
        simpa [needs_numeric_correction] using hneed

theorem compute_lines_inv (db : List StockQuant) (lines : List LineCmd)
    (r : List LineCmd) (h : compute_lines db lines = .ok (some r)) :
    ∃ pid i dl j cl pre b,
      check_lines lines = .ok pid ∧
      get_line_by_type lines .debit = .ok (i, dl) ∧
      get_line_by_type lines .credit = .ok (j, cl) ∧
      get_unique_analytic_accounts (find_inventory_by_product db pid) ≠ [] ∧
      revalue_groups (find_inventory_by_product db pid) dl cl dl.debit
        (get_total_quantity (find_inventory_by_product db pid))
        (group_list (find_inventory_by_product db pid)) = .ok pre ∧
      correct_numeric_discrepancy pre dl.debit = .ok (b, r) ∧
      r ≠ [] := by
  rw [compute_lines] at h
  cases h1 : check_lines lines with
  | error e => rw [h1] at h; exact absurd h (by simp)
  | ok pid =>
    rw [h1] at h
    cases h2 : get_line_by_type lines .debit with
    | error e => rw [h2] at h; exact absurd h (by simp)
    | ok pdl =>
      rw [h2] at h
      obtain ⟨i, dl⟩ := pdl
      cases h3 : get_line_by_type lines .credit with
      | error e => rw [h3] at h; exact absurd h (by simp)
      | ok pcl =>
        rw [h3] at h
        obtain ⟨j, cl⟩ := pcl
        simp only at h
        by_cases hacc :
          (get_unique_analytic_accounts (find_inventory_by_product db pid)).length = 0
        · rw [if_pos hacc] at h; exact absurd h (by simp)
        · rw [if_neg hacc] at h
          cases h4 : revalue_groups (find_inventory_by_product db pid) dl cl
              dl.debit (get_total_quantity (find_inventory_by_product db pid))
              (group_list (find_inventory_by_product db pid)) with
          | error e => rw [h4] at h; exact absurd h (by simp)
          | ok pre =>
            rw [h4] at h
            simp only at h
            cases h5 : correct_numeric_discrepancy pre dl.debit with
            | error e => rw [h5] at h; exact absurd h (by simp)
            | ok bc =>
              rw [h5] at h
              obtain ⟨b, corrected⟩ := bc
              simp only at h
              by_cases hemp : corrected.isEmpty
              · rw [if_pos hemp] at h; exact absurd h (by simp)
              · rw [if_neg hemp] at h
                injection h with h
                injection h with h
                subst h
                refine ⟨pid, i, dl, j, cl, pre, b, rfl, rfl, rfl, ?_, h4, h5, ?_⟩
                · intro hnil
                  exact hacc (by simp [hnil])
                · intro hnil
                  exact hemp (by simp [hnil])

theorem group_list_nodup (quants : List StockQuant) :
    (group_list quants).Nodup := by
  rw [group_list]
  have hmap : ((get_unique_analytic_accounts quants).map some).Nodup :=
    (List.nodup_dedup _).map (Option.some_injective Int)
  split_ifs with h
  · exact List.nodup_cons.mpr ⟨by simp, hmap⟩
  · exact hmap

/-! ## Concrete fixtures used to evaluate the embedded code -/

/-- A debit template line: 100.0 debit on product 7. -/
def sampleDebit : LineVals := { debit := 100, credit := 0, product_id := some 7 }

/-- A credit template line: 100.0 credit on product 7. -/
def sampleCredit : LineVals := { debit := 0, credit := 100, product_id := some 7 }

/-- A well-formed two-line request for product 7, total 100. -/
def sampleLines : List LineCmd := [mkCreate sampleDebit, mkCreate sampleCredit]

/-- Stock with a negative quant: -1 on account 1, +2 on account 2. -/
def dbNegative : List StockQuant :=
  [⟨7, "internal", -1, some 1⟩, ⟨7, "internal", 2, some 2⟩]

/-- What `compute_lines` produces on `dbNegative`/`sampleLines`: pairs of
100 and 200 (the correction is absorbed by the absolute value, leaving the
amounts unchanged). -/
def outNegative : List LineCmd :=
  [mkCreate ⟨100, 0, some 7, some 1, []⟩,
   mkCreate ⟨0, 100, some 7, some 1, []⟩,
   mkCreate ⟨200, 0, some 7, some 2, []⟩,
   mkCreate ⟨0, 200, some 7, some 2, []⟩]

/-- Three equal-quantity accounts (the spec's Scenario B). -/
def dbThreeEqual : List StockQuant :=
  [⟨7, "internal", 1, some 1⟩, ⟨7, "internal", 1, some 2⟩,
   ⟨7, "internal", 1, some 3⟩]

/-- `compute_lines` on `dbThreeEqual`/`sampleLines`: 33.33 per group, the
first pair corrected to 33.34. -/
def outThreeEqual : List LineCmd :=
  [mkCreate ⟨1667/50, 0, some 7, some 1, []⟩,
   mkCreate ⟨0, 1667/50, some 7, some 1, []⟩,
   mkCreate ⟨3333/100, 0, some 7, some 2, []⟩,
   mkCreate ⟨0, 3333/100, some 7, some 2, []⟩,
   mkCreate ⟨3333/100, 0, some 7, some 3, []⟩,
   mkCreate ⟨0, 3333/100, some 7, some 3, []⟩]

/-- A single quant, quantity 5, account 1. -/
def dbSingle : List StockQuant := [⟨7, "internal", 5, some 1⟩]

/-- Stock where account 2's share (1/20000) rounds to factor 0. -/
def dbElide : List StockQuant :=
  [⟨7, "internal", 19999, some 1⟩, ⟨7, "internal", 1, some 2⟩]

/-- The single full-total pair on account 1 (`dbSingle` and `dbElide` both
produce it). -/
def outOneAccount : List LineCmd :=
  [mkCreate ⟨100, 0, some 7, some 1, []⟩,
   mkCreate ⟨0, 100, some 7, some 1, []⟩]

/-! ## The claims -/

/-- C9: every emitted pair consists of copies of the debit and credit
templates with mutually exclusive, non-negative amounts: the debit line has
`debit = abs(value)` and `credit = 0`, the credit line the reverse, both
carry the group's `analytic_account_id` (`none` models Python `False` for
the synthetic unset group), and every other template field (product,
remaining dict entries) is preserved — the source copies the templates, so
the originals are never mutated. -/
theorem c9_pair_structure (template_debit template_credit : LineVals)
    (account : Option Int) (value : ℚ) :
    (create_aml_pair template_debit template_credit account value).1.debit
        = |value| ∧
    (create_aml_pair template_debit template_credit account value).1.credit
        = 0 ∧
    (create_aml_pair template_debit template_credit account value).2.debit
        = 0 ∧
    (create_aml_pair template_debit template_credit account value).2.credit
        = |value| ∧
    (create_aml_pair template_debit template_credit account
        value).1.analytic_account_id = account ∧
    (create_aml_pair template_debit template_credit account
        value).2.analytic_account_id = account ∧
    0 ≤ (create_aml_pair template_debit template_credit account
        value).1.debit ∧
    0 ≤ (create_aml_pair template_debit template_credit account
        value).2.credit ∧
    (create_aml_pair template_debit template_credit account
        value).1.product_id = template_debit.product_id ∧
    (create_aml_pair template_debit template_credit account value).1.extra
        = template_debit.extra ∧
    (create_aml_pair template_debit template_credit account
        value).2.product_id = template_credit.product_id ∧
    (create_aml_pair template_debit template_credit account value).2.extra
        = template_credit.extra := by
  refine ⟨rfl, rfl, rfl, rfl, rfl, rfl, ?_, ?_, rfl, rfl, rfl, rfl⟩
  · exact abs_nonneg value
  · exact abs_nonneg value

/-- C8: when the rounding correction runs on the emitted list (whose first
line is the first debit-role line and whose second is the first
credit-role line), only the first line's debit amount and the second
line's credit amount change: the difference `expected - actual` is added,
the amount re-rounded with the absolute value taken; every other field of
those two lines and all remaining lines are returned unchanged. -/
theorem c8_correction_frame (d c : LineCmd) (rest : List LineCmd)
    (actual expected : ℚ) (hd0 : d.vals.debit ≠ 0)
    (hdc : d.vals.credit = 0) (hcc : c.vals.credit ≠ 0) :
    correct_numeric (d :: c :: rest) actual expected =
      .ok ({ d with vals := { d.vals with
          debit := roundDec prec |d.vals.debit + (expected - actual)| } } ::
        { c with vals := { c.vals with
          credit := roundDec prec |c.vals.credit + (expected - actual)| } }
        :: rest) :=
  correct_numeric_eq d c rest actual expected hd0 hdc hcc

/-- C8 witness: on a concrete two-line list with actual 3 and expected 4
only the two amounts move, to 4 each. -/
theorem c8_correction_frame_witness :
    (mkCreate { debit := 3, product_id := some 7 }).vals.debit ≠ 0 ∧
    correct_numeric
      [mkCreate { debit := 3, product_id := some 7 },
        mkCreate { credit := 3, product_id := some 7 }] 3 4 =
      .ok [mkCreate { debit := 4, product_id := some 7 },
        mkCreate { credit := 4, product_id := some 7 }] := by
  constructor
  · decide
  · rw [c8_correction_frame _ _ _ _ _ (by decide) (by decide) (by decide)]
    decide

/-- C10: calling `revaluate` with a vals dict that has no `line_ids` key
raises ValidationError — the missing key defaults to an empty list, whose
length 0 fails the two-line check; the error propagates before anything is
written, so the caller's dict is untouched (an `Except.error` result
carries no modified vals). -/
theorem c10_missing_line_ids (db : List StockQuant) (vals : Vals)
    (h : vals.line_ids = none) :
    revaluate db vals = .error (.validation "Expected two lines") := by
  rw [revaluate, h]
  simp

/-- C10 witness. -/
theorem c10_missing_line_ids_witness :
    revaluate [] { line_ids := none, extra := [] } =
      .error (.validation "Expected two lines") :=
  c10_missing_line_ids [] { line_ids := none, extra := [] } rfl

/-- C2 counterexample: `check_lines` itself performs no length check: on a
well-formed list of three create commands it succeeds and returns the
product id instead of raising ValidationError. -/
theorem c2_counterexample :
    [mkCreate sampleDebit, mkCreate sampleCredit,
        mkCreate sampleDebit].length = 3 ∧
    check_lines [mkCreate sampleDebit, mkCreate sampleCredit,
        mkCreate sampleDebit] = .ok 7 := by
  constructor
  · decide
  · decide

/-- C2 (amended): the exactly-two-lines check lives in `revaluate`, not in
`check_lines`: for every input whose line-command list has length other
than 2, `revaluate` raises ValidationError before computing anything. -/
theorem c2_length_check (db : List StockQuant) (vals : Vals)
    (h : (vals.line_ids.getD []).length ≠ 2) :
    revaluate db vals = .error (.validation "Expected two lines") := by
  rw [revaluate]
  exact if_pos h

/-- C2 witness: a three-entry line list makes `revaluate` fail. -/
theorem c2_length_check_witness :
    ([mkCreate sampleDebit, mkCreate sampleCredit, mkCreate sampleDebit]
        : List LineCmd).length ≠ 2 ∧
    revaluate []
      { line_ids := some [mkCreate sampleDebit, mkCreate sampleCredit,
          mkCreate sampleDebit], extra := [] } =
      .error (.validation "Expected two lines") := by
  constructor
  · decide
  · exact c2_length_check [] _ (by decide)

/-- C5: `revaluate` returns true and installs exactly Compute's result in
`line_ids` when `compute_lines` produces a non-empty result, and returns
false leaving the vals unchanged when it produces `None`; the installed
list is never empty (and never partial: it is precisely the list
`compute_lines` returned). -/
theorem c5_revaluate_exact (db : List StockQuant) (vals : Vals)
    (h2 : (vals.line_ids.getD []).length = 2) :
    (∀ r, compute_lines db (vals.line_ids.getD []) = .ok (some r) →
      revaluate db vals = .ok ({ vals with line_ids := some r }, true) ∧
        r ≠ []) ∧
    (compute_lines db (vals.line_ids.getD []) = .ok none →
      revaluate db vals = .ok (vals, false)) := by
  constructor
  · intro r hc
    constructor
    · rw [revaluate, if_neg (by simp [h2]), hc]
    · obtain ⟨_, _, _, _, _, _, _, _, _, _, _, _, _, hr⟩ :=
        compute_lines_inv db _ r hc
      exact hr
  · intro hc
    rw [revaluate, if_neg (by simp [h2]), hc]

/-- C5 witness: on a single-account inventory the two computed lines are
installed and `revaluate` answers true. -/
theorem c5_revaluate_exact_witness :
    (({ line_ids := some sampleLines, extra := [] }
        : Vals).line_ids.getD []).length = 2 ∧
    revaluate dbSingle { line_ids := some sampleLines, extra := [] } =
      .ok ({ line_ids := some outOneAccount, extra := [] }, true) := by
  constructor
  · decide
  · exact ((c5_revaluate_exact dbSingle
      { line_ids := some sampleLines, extra := [] } (by decide)).1
      outOneAccount (by decide)).1

/-- C3 counterexample: with account 1 holding 12345 of 100000 units the
exact share is 0.12345; `round` on a `Decimal` quantizes with the default
ROUND_HALF_EVEN, so the computed factor is 0.1234, while
round-half-away-from-zero — what the claim asserts — would give 0.1235. -/
theorem c3_counterexample :
    compute_revaluation_factor
        [⟨7, "internal", 12345, some 1⟩, ⟨7, "internal", 87655, some 2⟩]
        (some 1)
        (get_total_quantity
          [⟨7, "internal", 12345, some 1⟩, ⟨7, "internal", 87655, some 2⟩]) =
      .ok (1234 / 10000) ∧
    specRoundHalfAwayDec prec
        (get_total_quantity (filter_by_analytic_account
            [⟨7, "internal", 12345, some 1⟩, ⟨7, "internal", 87655, some 2⟩]
            (some 1)) /
          get_total_quantity
            [⟨7, "internal", 12345, some 1⟩, ⟨7, "internal", 87655, some 2⟩]) =
      1235 / 10000 ∧
    ((1234 : ℚ) / 10000) ≠ 1235 / 10000 := by
  refine ⟨by decide, by decide, by norm_num⟩

/-- C3 (amended): the factor and the group value are rounded at precision
4, but with the `Decimal` default rounding ROUND_HALF_EVEN (banker's
rounding), not round-half-away-from-zero: the factor is the exact quantity
share rounded to 4 places with ties to the even neighbour, and the group
value is factor times total rounded the same way. -/
theorem c3_rounding_half_even (quants : List StockQuant)
    (account : Option Int) (total_quantity factor valuation_total : ℚ)
    (h : total_quantity ≠ 0) :
    (∃ f, compute_revaluation_factor quants account total_quantity = .ok f ∧
      HalfEvenRound prec
        (get_total_quantity (filter_by_analytic_account quants account) /
          total_quantity) f) ∧
    HalfEvenRound prec (factor * valuation_total)
      (compute_group_value factor valuation_total) := by
  refine ⟨⟨_, ?_, halfEvenRound_roundDec _ _⟩, halfEvenRound_roundDec _ _⟩
  rw [compute_revaluation_factor, if_neg h]

/-- C3 witness: one quant of quantity 5 on account 1, total quantity 5,
factor rounds from share 1. -/
theorem c3_rounding_half_even_witness :
    (5 : ℚ) ≠ 0 ∧
    ((∃ f, compute_revaluation_factor dbSingle (some 1) 5 = .ok f ∧
      HalfEvenRound prec
        (get_total_quantity (filter_by_analytic_account dbSingle (some 1)) /
          5) f) ∧
    HalfEvenRound prec ((1 : ℚ) * 100) (compute_group_value 1 100)) :=
  ⟨by norm_num,
    c3_rounding_half_even dbSingle (some 1) 5 1 100 (by norm_num)⟩

/-- C4 counterexample: a single quant with quantity 0 and an analytic
account set makes the account set non-empty while the total quantity is
zero, and `compute_lines` does hit the division by zero (the `Decimal`
division signals). -/
theorem c4_counterexample :
    get_unique_analytic_accounts [⟨7, "internal", 0, some 1⟩] ≠ [] ∧
    get_total_quantity [⟨7, "internal", 0, some 1⟩] = 0 ∧
    compute_lines [⟨7, "internal", 0, some 1⟩] sampleLines =
      .error .divisionByZero := by
  refine ⟨by decide, by decide, by decide⟩

/-- C4 (amended): provided every stock record found for the product has
positive quantity (the spec's tacit assumption "accounts only attach to
records with quantity"), a non-empty account set forces a nonzero total
quantity, and the factor computation never signals division by zero. -/
theorem c4_total_quantity_nonzero (quants : List StockQuant)
    (hpos : ∀ q ∈ quants, 0 < q.quantity)
    (hne : get_unique_analytic_accounts quants ≠ []) :
    get_total_quantity quants ≠ 0 ∧
    ∀ account : Option Int, ∃ f,
      compute_revaluation_factor quants account (get_total_quantity quants) =
        .ok f := by
  have hqne : quants ≠ [] := by
    intro h
    subst h
    exact hne rfl
  have hpos2 : 0 < get_total_quantity quants := by
    rw [get_total_quantity]
    cases quants with
    | nil => exact absurd rfl hqne
    | cons q qs =>
      simp only [List.map_cons, List.sum_cons]
      have h1 : 0 < q.quantity := hpos q (by simp)
      have h2 : 0 ≤ (qs.map fun x => x.quantity).sum := by
        refine List.sum_nonneg ?_
        intro x hx
        obtain ⟨q2, hq2, rfl⟩ := List.mem_map.mp hx
        exact le_of_lt (hpos q2 (by simp [hq2]))
      linarith
  refine ⟨ne_of_gt hpos2, fun account => ?_⟩
  exact ⟨roundDec prec
      (get_total_quantity (filter_by_analytic_account quants account) /
        get_total_quantity quants),
    by rw [compute_revaluation_factor, if_neg (ne_of_gt hpos2)]⟩

/-- C4 witness: a single positive-quantity quant. -/
theorem c4_total_quantity_nonzero_witness :
    (∀ q ∈ dbSingle, 0 < q.quantity) ∧
    get_unique_analytic_accounts dbSingle ≠ [] ∧
    (get_total_quantity dbSingle ≠ 0 ∧
      ∀ account : Option Int, ∃ f,
        compute_revaluation_factor dbSingle account
          (get_total_quantity dbSingle) = .ok f) :=
  ⟨by decide, by decide,
    c4_total_quantity_nonzero dbSingle (by decide) (by decide)⟩

/-- C6: small-group elision — when a group's proportional share rounds to
exactly zero at the configured precision (its factor `f` gives
`compute_group_value f total = 0`), no emitted line of the result carries
that group's analytic account, i.e. the group produces no debit/credit
pair. -/
theorem c6_small_group_elision (db : List StockQuant)
    (lines r : List LineCmd) (pid : Int) (i : ℕ) (dl : LineVals)
    (g : Option Int) (f : ℚ)
    (hc : compute_lines db lines = .ok (some r))
    (hp : check_lines lines = .ok pid)
    (hd : get_line_by_type lines .debit = .ok (i, dl))
    (_hg : g ∈ group_list (find_inventory_by_product db pid))
    (hf : compute_revaluation_factor (find_inventory_by_product db pid) g
      (get_total_quantity (find_inventory_by_product db pid)) = .ok f)
    (hz : compute_group_value f dl.debit = 0) :
    ∀ cmd ∈ r, cmd.vals.analytic_account_id ≠ g := by
  obtain ⟨pid2, i2, dl2, j2, cl2, pre, b, hp2, hd2, hc2, hacc, hrg, hdisc, hr⟩ :=
    compute_lines_inv db lines r hc
  rw [hp] at hp2
  have hpid : pid = pid2 := Except.ok.inj hp2
  subst hpid
  rw [hd] at hd2
  have hdl : dl = dl2 := congrArg Prod.snd (Except.ok.inj hd2)
  subst hdl
  obtain ⟨gs2, hsub, hmap, hval⟩ :=
    revalue_groups_accounts _ _ _ _ _ _ pre hrg
  intro cmd hcmd hgeq
  have hmem : cmd.vals.analytic_account_id ∈
      r.map (fun x => x.vals.analytic_account_id) :=
    List.mem_map_of_mem _ hcmd
  rw [correct_numeric_discrepancy_map_account pre dl.debit b r hdisc,
    hmap, hgeq] at hmem
  obtain ⟨f2, hf2, hnz⟩ := hval g (mem_doubled.mp hmem)
  rw [hf] at hf2
  have hfe : f = f2 := Except.ok.inj hf2
  subst hfe
  exact hnz hz

/-- C6 witness: on `dbElide` account 2's share (1/20000) rounds to factor
0, the group value is 0, and no line of the result carries account 2. -/
theorem c6_small_group_elision_witness :
    compute_group_value 0 sampleDebit.debit = 0 ∧
    ∀ cmd ∈ outOneAccount, cmd.vals.analytic_account_id ≠ some 2 :=
  ⟨by decide,
    c6_small_group_elision dbElide sampleLines outOneAccount 7 0 sampleDebit
      (some 2) 0 (by decide) (by decide) (by decide) (by decide) (by decide)
      (by decide)⟩

/-- C7: group completeness — the accounts of the emitted lines are some
duplicate-free list of groups, each repeated exactly once per line of its
single pair, so every analytic account appears in at most one emitted
debit/credit pair and none appears in two. -/
theorem c7_group_uniqueness (db : List StockQuant) (lines r : List LineCmd)
    (hc : compute_lines db lines = .ok (some r)) :
    ∃ gs, gs.Nodup ∧
      r.map (fun x => x.vals.analytic_account_id) = doubled gs := by
  obtain ⟨pid, i, dl, j, cl, pre, b, hp, hd, hcr, hacc, hrg, hdisc, hr⟩ :=
    compute_lines_inv db lines r hc
  obtain ⟨gs2, hsub, hmap, hval⟩ :=
    revalue_groups_accounts _ _ _ _ _ _ pre hrg
  refine ⟨gs2, ?_, ?_⟩
  · exact List.Nodup.sublist hsub (group_list_nodup _)
  · rw [correct_numeric_discrepancy_map_account pre dl.debit b r hdisc, hmap]

/-- C7 witness: on `dbNegative` the result's account column is accounts 1
and 2 doubled, duplicate-free. -/
theorem c7_group_uniqueness_witness :
    ∃ gs, gs.Nodup ∧
      outNegative.map (fun x => x.vals.analytic_account_id) = doubled gs :=
  c7_group_uniqueness dbNegative sampleLines outNegative (by decide)

/-- C1 counterexample: with stock -1 on account 1 and +2 on account 2 the
factors are -1 and 2, the emitted debits 100 and 200 (sum 300); the
correction computes difference -200, but the absolute value flips the
corrected first amounts back to 100, so the final sum 300 still differs
from the original total 100 — conservation fails on a valid two-line
request that Compute answers. -/
theorem c1_counterexample :
    compute_lines dbNegative sampleLines = .ok (some outNegative) ∧
    get_line_by_type sampleLines .debit = .ok (0, sampleDebit) ∧
    sampleDebit.debit = 100 ∧
    roundDec prec (compute_actual_total_of outNegative) ≠
      roundDec prec sampleDebit.debit := by
  refine ⟨by decide, by decide, by decide, by decide⟩

/-- C1 (amended): conservation holds provided the original total (the
input debit amount) is exactly representable at the configured precision
and is at least the sum of the debit amounts of all emitted lines after
the first — then the corrected first debit stays non-negative, the
absolute value in the correction cannot flip its sign, and the rounded sum
of emitted debits equals the rounded original total.  (Negative stock
quantities, or many small upward-rounding groups, violate the proviso and
conservation with it, as the counterexample shows.) -/
theorem c1_conservation (db : List StockQuant) (lines r : List LineCmd)
    (i : ℕ) (dl : LineVals)
    (hc : compute_lines db lines = .ok (some r))
    (hd : get_line_by_type lines .debit = .ok (i, dl))
    (hdec : IsDecMult prec dl.debit)
    (hnn : compute_actual_total_of (List.drop 1 r) ≤ dl.debit) :
    roundDec prec (compute_actual_total_of r) = roundDec prec dl.debit := by
  obtain ⟨pid, i2, dl2, j2, cl2, pre, b, hp, hd2, hcr, hacc, hrg, hdisc, hr⟩ :=
    compute_lines_inv db lines r hc
  rw [hd] at hd2
  have hdl : dl = dl2 := congrArg Prod.snd (Except.ok.inj hd2)
  subst hdl
  have hshape := revalue_groups_shape _ _ _ _ _ _ pre hrg
  have hpre : pre ≠ [] := by
    intro hnil
    subst hnil
    rw [correct_numeric_discrepancy] at hdisc
    simp only [List.isEmpty_nil, if_true, Except.ok.injEq, Prod.mk.injEq]
      at hdisc
    exact hr hdisc.2.symm
  exact correct_discrepancy_conservation pre dl.debit b r hshape hpre hdec
    hdisc hnn

/-- C1 witness: the spec's Scenario B — three equal groups, 33.33 each,
sum 99.99, the correction lifts the first pair to 33.34, and the rounded
sum equals the rounded total 100. -/
theorem c1_conservation_witness :
    IsDecMult prec sampleDebit.debit ∧
    compute_actual_total_of (List.drop 1 outThreeEqual) ≤ sampleDebit.debit ∧
    roundDec prec (compute_actual_total_of outThreeEqual) =
      roundDec prec sampleDebit.debit :=
  ⟨⟨1000000, by norm_num [sampleDebit, prec]⟩, by decide,
    c1_conservation dbThreeEqual sampleLines outThreeEqual 0 sampleDebit
      (by decide) (by decide) ⟨1000000, by norm_num [sampleDebit, prec]⟩
      (by decide)⟩

end StockQuantAnalytic
